import Mathlib

/-!
# Verification of the `servicemaker` packaging pipeline

A shallow embedding of `src/main.rs` of the `servicemaker` repository.

Modelling conventions:
* Text is modelled as `String` (for fixed messages and names) or as
  `List Char` (for the text-processing functions), matching Rust
  byte-level scanning on the ASCII inputs these functions receive.
* Filesystem presence checks (`Path::exists`) become `Bool` fields of a
  record describing the project directory.
* External processes (docker, helm) are modelled by a `World` record
  giving each invoked command's exit status and relevant output; the
  pipeline of `main` becomes a pure function from the configuration and
  the world to the list of invoked steps and an `Except` outcome whose
  error is the exact message string built by the source.
* Fallible Rust functions returning `Result<_, Box<dyn Error>>` become
  `Except String _`, with the error message taken verbatim from the
  source (`?`-propagated library errors, whose display text is produced
  outside this repository, are modelled by a fixed descriptive string,
  noted at each use).
-/

/-! ## Project classification (`detect_project_type`) -/

/-- Marker-file presence in a project home directory: `pyproject.toml`,
`package.json`, `services.json` (`Path::exists` checks of the source). -/
structure ProjectDir where
  pyproject : Bool
  packageJson : Bool
  servicesJson : Bool
deriving DecidableEq, Repr

/-- Embedding of `detect_project_type` (main.rs:558-577). -/
def detect_project_type (d : ProjectDir) : Except String String :=
  if d.pyproject then .ok "python"
  else if d.packageJson && d.servicesJson then .ok "foxx"
  else if d.packageJson then .ok "foxx-service"
  else .error "Could not detect project type. Expected pyproject.toml (Python) or package.json (Node.js)"

/-! ## Base-image resolution (main.rs:154-157 and 172-175)

In `main`, both the `"foxx"` arm and the `"foxx-service" | "nodejs"` arm
replace the base image by the Node.js default exactly when it equals the
Python default (the clap default value of `--base-image`). -/

/-- The clap default of `--base-image` (main.rs:76). -/
def pythonDefaultBaseImage : String := "arangodb/py13base:latest"

/-- The Node.js default substituted in the foxx arms. -/
def nodeDefaultBaseImage : String := "arangodb/node22base:latest"

/-- Embedding of the base-image adjustment performed in `main`'s match on
the project type (main.rs:154-157, 172-175): for the Node.js-family arms
the Python default is replaced, any other value is kept; the `"python"`
arm never touches the base image. -/
def resolve_base_image (project_type : String) (base_image : String) : String :=
  if (project_type = "foxx" ∨ project_type = "foxx-service" ∨ project_type = "nodejs")
      ∧ base_image = pythonDefaultBaseImage
  then nodeDefaultBaseImage
  else base_image

/-! ## Runtime-version derivation (`extract_python_version`, main.rs:511-528) -/

/-- Byte index of the first occurrence of `pat` in `s`
(Rust `str::find(&str)`), `none` when `pat` does not occur. -/
def findSubstr (pat : List Char) : List Char → Option Nat
  | [] => if pat = [] then some 0 else none
  | c :: rest =>
      if pat.isPrefixOf (c :: rest) then some 0
      else (findSubstr pat rest).map (· + 1)

/-- Index of the first character satisfying `p`
(Rust `str::find(|c| ...)`), `none` when no character satisfies it. -/
def findCharIdx (p : Char → Bool) : List Char → Option Nat
  | [] => none
  | c :: rest => if p c then some 0 else (findCharIdx p rest).map (· + 1)

/-- Embedding of `extract_python_version` (main.rs:511-528): find `"py"`,
take the digit run immediately after it, return `"3." ++ digits` when the
run is non-empty, the default `"3.13"` otherwise. -/
def extract_python_version (base_image : List Char) : List Char :=
  match findSubstr ['p', 'y'] base_image with
  | some py_pos =>
      let after_py := base_image.drop (py_pos + 2)
      match findCharIdx (fun c => !c.isDigit) after_py with
      | some end_pos =>
          let version_digits := after_py.take end_pos
          if version_digits ≠ [] then '3' :: '.' :: version_digits
          else "3.13".toList
      | none =>
          if after_py ≠ [] ∧ after_py.all Char.isDigit then '3' :: '.' :: after_py
          else "3.13".toList
  | none => "3.13".toList

/-- The formatting rule as the specification sentence words it:
`<first-digit>.<remaining-digits>` of the extracted digit run. Stated
only to compare against `extract_python_version`. -/
def specFirstDotRest (digits : List Char) : List Char :=
  match digits with
  | [] => []
  | d :: rest => d :: '.' :: rest

/-! ## Metadata reading (`read_service_info_from_pyproject`,
`read_service_info_from_package_json`, main.rs:685-743) -/

/-- Result of locating and parsing a manifest file: the file may be
missing (`Path::exists` false), unparsable (`toml::from_str` /
`serde_json::from_str` error), or parsed into a document `α`. -/
inductive ManifestFile (α : Type) where
  | missing
  | unparsable
  | parsed (doc : α)
deriving DecidableEq, Repr

/-- The `[project]` table of a `pyproject.toml` as accessed by the
source: `get("name")`/`get("version")` chained with `as_str`, so a field
that is absent or not a string is `none`. -/
structure PyprojectTable where
  name : Option String
  version : Option String
deriving DecidableEq, Repr

/-- A parsed `pyproject.toml` document: `value.get("project")`. -/
structure PyprojectDoc where
  project : Option PyprojectTable
deriving DecidableEq, Repr

/-- A parsed `package.json` document: top-level `name` and `version`,
each `none` when absent or not a string. -/
structure PackageJsonDoc where
  name : Option String
  version : Option String
deriving DecidableEq, Repr

/-- Embedding of `read_service_info_from_pyproject` (main.rs:685-714);
manifest format A. The unparsable case propagates the toml error, whose
display text is modelled by a fixed string. -/
def read_service_info_from_pyproject (f : ManifestFile PyprojectDoc) :
    Except String (String × String) :=
  match f with
  | .missing => .error "pyproject.toml not found in project home"
  | .unparsable => .error "TOML parse error"
  | .parsed doc =>
      match (doc.project.bind fun p => p.name) with
      | none => .error "Missing 'project.name' in pyproject.toml"
      | some name =>
          match (doc.project.bind fun p => p.version) with
          | none => .error "Missing 'project.version' in pyproject.toml"
          | some version => .ok (name, version)

/-- Embedding of `read_service_info_from_package_json` (main.rs:716-743);
manifest format B: `version` defaults to `"1.0.0"` when absent. -/
def read_service_info_from_package_json (f : ManifestFile PackageJsonDoc) :
    Except String (String × String) :=
  match f with
  | .missing => .error "package.json not found in project home"
  | .unparsable => .error "JSON parse error"
  | .parsed doc =>
      match doc.name with
      | none => .error "Missing 'name' in package.json"
      | some name => .ok (name, doc.version.getD "1.0.0")

/-- An `Except` value is an error. -/
def isErr {ε α : Type} (e : Except ε α) : Prop :=
  match e with
  | .error _ => True
  | .ok _ => False

instance {ε α : Type} (e : Except ε α) : Decidable (isErr e) := by
  unfold isErr
  cases e <;> simp <;> infer_instance

/-! ## Theorems for claims C2, C10, C3, C4 -/

/-- C2: classification checks the three marker files in precedence order
and returns exactly one project type: a present `pyproject.toml` gives
the script-project type (`"python"`); otherwise `package.json` together
with `services.json` gives the multi-service type (`"foxx"`); otherwise
`package.json` alone gives the single-service type (`"foxx-service"`);
with none of the three markers present classification fails. -/
theorem detect_project_type_cases (d : ProjectDir) :
    (d.pyproject = true → detect_project_type d = .ok "python")
    ∧ (d.pyproject = false → d.packageJson = true → d.servicesJson = true →
        detect_project_type d = .ok "foxx")
    ∧ (d.pyproject = false → d.packageJson = true → d.servicesJson = false →
        detect_project_type d = .ok "foxx-service")
    ∧ (d.pyproject = false → d.packageJson = false → d.servicesJson = false →
        isErr (detect_project_type d)) := by
  obtain ⟨p, j, s⟩ := d
  cases p <;> cases j <;> cases s <;>
    simp [detect_project_type, isErr]

/-- Witness for C2: the four cases of `detect_project_type_cases`
evaluated at concrete directories. -/
theorem detect_project_type_cases_witness :
    detect_project_type ⟨true, false, false⟩ = .ok "python"
    ∧ detect_project_type ⟨false, true, true⟩ = .ok "foxx"
    ∧ detect_project_type ⟨false, true, false⟩ = .ok "foxx-service"
    ∧ isErr (detect_project_type ⟨false, false, false⟩) :=
  ⟨(detect_project_type_cases ⟨true, false, false⟩).1 rfl,
   (detect_project_type_cases ⟨false, true, true⟩).2.1 rfl rfl rfl,
   (detect_project_type_cases ⟨false, true, false⟩).2.2.1 rfl rfl rfl,
   (detect_project_type_cases ⟨false, false, false⟩).2.2.2 rfl rfl rfl⟩

/-- C10: for the Node.js-family project types, a base image equal to the
literal Python default is silently replaced by the Node.js default; any
other base image is kept unchanged; consequently the resolved base image
of a Node.js-family run is never the Python default. -/
theorem resolve_base_image_node_family (pt b : String)
    (hpt : pt = "foxx" ∨ pt = "foxx-service" ∨ pt = "nodejs") :
    (b = pythonDefaultBaseImage → resolve_base_image pt b = nodeDefaultBaseImage)
    ∧ (b ≠ pythonDefaultBaseImage → resolve_base_image pt b = b)
    ∧ resolve_base_image pt b ≠ pythonDefaultBaseImage := by
  refine ⟨fun hb => ?_, fun hb => ?_, ?_⟩
  · rw [resolve_base_image, if_pos ⟨hpt, hb⟩]
  · rw [resolve_base_image, if_neg (fun hc => hb hc.2)]
  · by_cases hb : b = pythonDefaultBaseImage
    · rw [resolve_base_image, if_pos ⟨hpt, hb⟩]
      decide
    · rw [resolve_base_image, if_neg (fun hc => hb hc.2)]
      exact hb

/-- Witness for C10: `resolve_base_image_node_family` at concrete
inputs: the Python default is swapped for `"foxx"`, a custom image is
kept for `"nodejs"`. -/
theorem resolve_base_image_node_family_witness :
    resolve_base_image "foxx" "arangodb/py13base:latest" = nodeDefaultBaseImage
    ∧ resolve_base_image "nodejs" "myimage:1" = "myimage:1"
    ∧ resolve_base_image "foxx-service" "arangodb/py13base:latest" ≠ pythonDefaultBaseImage :=
  ⟨(resolve_base_image_node_family "foxx" "arangodb/py13base:latest" (Or.inl rfl)).1 rfl,
   (resolve_base_image_node_family "nodejs" "myimage:1" (Or.inr (Or.inr rfl))).2.1 (by decide),
   (resolve_base_image_node_family "foxx-service" "arangodb/py13base:latest"
      (Or.inr (Or.inl rfl))).2.2⟩

/-- C3 counterexample: on the base image `"py42base"` the code yields
`"3.42"` (the fixed major prefix `3` followed by the whole digit run),
whereas the claimed format `<first-digit>.<remaining-digits>` yields
`"4.2"`; the two differ. -/
theorem extract_python_version_counterexample :
    extract_python_version "py42base".toList = "3.42".toList
    ∧ specFirstDotRest "42".toList = "4.2".toList
    ∧ "3.42".toList ≠ "4.2".toList := by
  refine ⟨by decide, by decide, by decide⟩

/-- A pattern that occurs nowhere in `s` is not found by the scan. -/
theorem findSubstr_eq_none (pat s : List Char) (h : ¬ pat <:+: s) :
    findSubstr pat s = none := by
  induction s with
  | nil =>
      have hp : pat ≠ [] := by
        intro hp
        exact h (by rw [hp])
      rw [findSubstr, if_neg hp]
  | cons c rest ih =>
      have h1 : ¬ (pat.isPrefixOf (c :: rest) = true) := fun hp =>
        h (List.IsPrefix.isInfix (List.isPrefixOf_iff_prefix.mp hp))
      have h2 : ¬ pat <:+: rest := fun hinf => h (List.infix_cons hinf)
      rw [findSubstr, if_neg h1, ih h2]
      rfl

/-- The scan reports the position of the first occurrence of the
pattern: the pattern starts there and at no earlier position. -/
theorem findSubstr_first (pat : List Char) :
    ∀ (s : List Char) (i : Nat), findSubstr pat s = some i →
      pat <+: s.drop i ∧ ∀ j, j < i → ¬ pat <+: s.drop j := by
  intro s
  induction s with
  | nil =>
      intro i h
      rw [findSubstr] at h
      by_cases hp : pat = []
      · rw [if_pos hp] at h
        have hi : i = 0 := (Option.some.inj h).symm
        subst hi
        exact ⟨by rw [hp]; exact List.nil_prefix, fun j hj => absurd hj (Nat.not_lt_zero j)⟩
      · rw [if_neg hp] at h
        simp at h
  | cons c rest ih =>
      intro i h
      rw [findSubstr] at h
      by_cases hp : pat.isPrefixOf (c :: rest) = true
      · rw [if_pos hp] at h
        have hi : i = 0 := (Option.some.inj h).symm
        subst hi
        exact ⟨List.isPrefixOf_iff_prefix.mp hp, fun j hj => absurd hj (Nat.not_lt_zero j)⟩
      · rw [if_neg hp] at h
        rcases hfr : findSubstr pat rest with _ | j
        · rw [hfr] at h
          simp at h
        · rw [hfr] at h
          simp at h
          subst h
          obtain ⟨ha, hb⟩ := ih j hfr
          refine ⟨ha, ?_⟩
          intro k hk
          cases k with
          | zero => exact fun hpre => hp (List.isPrefixOf_iff_prefix.mpr hpre)
          | succ m => exact fun hpre => hb m (by omega) hpre

/-- When the scan finds a first non-digit at position `k`, the leading
digit run is the first `k` characters. -/
theorem findCharIdx_some_takeWhile (p : Char → Bool) :
    ∀ (l : List Char) (k : Nat), findCharIdx (fun c => !p c) l = some k →
      l.takeWhile p = l.take k := by
  intro l
  induction l with
  | nil =>
      intro k h
      rw [findCharIdx] at h
      simp at h
  | cons c rest ih =>
      intro k h
      rw [findCharIdx] at h
      by_cases hc : (!p c) = true
      · rw [if_pos hc] at h
        have hk : k = 0 := (Option.some.inj h).symm
        subst hk
        have hpc : p c = false := by simpa using hc
        simp [List.takeWhile_cons, hpc]
      · rw [if_neg hc] at h
        rcases hfr : findCharIdx (fun c => !p c) rest with _ | m
        · rw [hfr] at h
          simp at h
        · rw [hfr] at h
          simp at h
          subst h
          have hpc : p c = true := by simpa using hc
          simp [List.takeWhile_cons, hpc, ih m hfr]

/-- When the scan finds no non-digit, the whole list is its own leading
digit run. -/
theorem findCharIdx_none_takeWhile (p : Char → Bool) :
    ∀ l : List Char, findCharIdx (fun c => !p c) l = none →
      l.takeWhile p = l ∧ l.all p = true := by
  intro l
  induction l with
  | nil => exact fun h => ⟨rfl, rfl⟩
  | cons c rest ih =>
      intro h
      rw [findCharIdx] at h
      by_cases hc : (!p c) = true
      · rw [if_pos hc] at h
        simp at h
      · rw [if_neg hc] at h
        have hpc : p c = true := by simpa using hc
        rcases hfr : findCharIdx (fun c => !p c) rest with _ | m
        · obtain ⟨h1, h2⟩ := ih hfr
          exact ⟨by simp [List.takeWhile_cons, hpc, h1], by simp [hpc, h2]⟩
        · rw [hfr] at h
          simp at h

/-- C3 amended: for every base-image string, the derived version is
`"3."` followed by the digit run immediately after the first occurrence
of the marker `"py"` (so a suffix `13` yields `3.13`); when the marker
is absent, or is followed by no digits, the result is the fixed default
`"3.13"`. The second conjunct pins the scanned position to the first
marker occurrence, and the digit run after it is `takeWhile isDigit` of
the remaining tail. -/
theorem extract_python_version_spec (s d : List Char) (i : Nat) :
    (¬ ['p', 'y'] <:+: s → extract_python_version s = "3.13".toList)
    ∧ (findSubstr ['p', 'y'] s = some i →
        ['p', 'y'] <+: s.drop i ∧ ∀ j, j < i → ¬ ['p', 'y'] <+: s.drop j)
    ∧ (findSubstr ['p', 'y'] s = some i →
        (s.drop (i + 2)).takeWhile Char.isDigit = [] →
        extract_python_version s = "3.13".toList)
    ∧ (findSubstr ['p', 'y'] s = some i →
        d = (s.drop (i + 2)).takeWhile Char.isDigit → d ≠ [] →
        extract_python_version s = '3' :: '.' :: d) := by
  refine ⟨fun h => ?_, fun h => findSubstr_first ['p', 'y'] s i h,
    fun h htw => ?_, fun h hd hne => ?_⟩
  · have h0 := findSubstr_eq_none ['p', 'y'] s h
    rw [extract_python_version]
    simp [h0]
  · rw [extract_python_version]
    simp only [h]
    rcases hidx : findCharIdx (fun c => !c.isDigit) (s.drop (i + 2)) with _ | k
    · obtain ⟨h1, h2⟩ := findCharIdx_none_takeWhile Char.isDigit (s.drop (i + 2)) hidx
      have hl : s.drop (i + 2) = [] := by rw [← h1, htw]
      simp [hidx, hl]
    · have h1 := findCharIdx_some_takeWhile Char.isDigit (s.drop (i + 2)) k hidx
      rw [htw] at h1
      simp [hidx, ← h1]
  · rw [extract_python_version]
    simp only [h]
    rcases hidx : findCharIdx (fun c => !c.isDigit) (s.drop (i + 2)) with _ | k
    · obtain ⟨h1, h2⟩ := findCharIdx_none_takeWhile Char.isDigit (s.drop (i + 2)) hidx
      have hdd : d = s.drop (i + 2) := by rw [hd, h1]
      subst hdd
      simp [hidx, hne, h2]
    · have h1 := findCharIdx_some_takeWhile Char.isDigit (s.drop (i + 2)) k hidx
      have hdd : d = (s.drop (i + 2)).take k := by rw [hd, h1]
      subst hdd
      simp [hidx, hne]

/-- Witness for C3 amended: `extract_python_version_spec` at the
markerless image `"ubuntu"`, at `"pybase"` (marker with no digits), and
at the program default `"arangodb/py13base:latest"` (mid-string marker
at index 9, digit run `13`). -/
theorem extract_python_version_spec_witness :
    extract_python_version "ubuntu".toList = "3.13".toList
    ∧ ['p', 'y'] <+: ("arangodb/py13base:latest".toList).drop 9
    ∧ extract_python_version "pybase".toList = "3.13".toList
    ∧ extract_python_version "arangodb/py13base:latest".toList = '3' :: '.' :: "13".toList :=
  ⟨(extract_python_version_spec "ubuntu".toList [] 0).1 (by decide),
   ((extract_python_version_spec "arangodb/py13base:latest".toList [] 9).2.1 (by decide)).1,
   (extract_python_version_spec "pybase".toList [] 0).2.2.1 (by decide) (by decide),
   (extract_python_version_spec "arangodb/py13base:latest".toList "13".toList 9).2.2.2
     (by decide) (by decide) (by decide)⟩

/-- C4: format B (`package.json`) with the version field absent yields
version `"1.0.0"`, while format A (`pyproject.toml`) with the version
field absent fails; for both formats a missing name, a missing manifest
file, or an unparsable manifest fails. -/
theorem manifest_version_defaulting :
    (∀ (name : String) (doc : PackageJsonDoc), doc.name = some name → doc.version = none →
      read_service_info_from_package_json (.parsed doc) = .ok (name, "1.0.0"))
    ∧ (∀ (name : String) (t : PyprojectTable), t.name = some name → t.version = none →
        read_service_info_from_pyproject (.parsed ⟨some t⟩) =
          .error "Missing 'project.version' in pyproject.toml")
    ∧ (∀ doc : PackageJsonDoc, doc.name = none →
        isErr (read_service_info_from_package_json (.parsed doc)))
    ∧ (∀ doc : PyprojectDoc, (doc.project.bind fun p => p.name) = none →
        isErr (read_service_info_from_pyproject (.parsed doc)))
    ∧ isErr (read_service_info_from_package_json .missing)
    ∧ isErr (read_service_info_from_pyproject .missing)
    ∧ isErr (read_service_info_from_package_json .unparsable)
    ∧ isErr (read_service_info_from_pyproject .unparsable) := by
  refine ⟨fun name doc hn hv => ?_, fun name t hn hv => ?_, fun doc hn => ?_,
    fun doc hn => ?_, ⟨⟩, ⟨⟩, ⟨⟩, ⟨⟩⟩
  · rw [read_service_info_from_package_json]
    simp [hn, hv]
  · rw [read_service_info_from_pyproject]
    simp [hn, hv]
  · rw [read_service_info_from_package_json]
    simp [hn, isErr]
  · rw [read_service_info_from_pyproject]
    simp [hn, isErr]

/-- Witness for C4: `manifest_version_defaulting` applied at concrete
manifest documents. -/
theorem manifest_version_defaulting_witness :
    read_service_info_from_package_json (.parsed ⟨some "svc", none⟩) = .ok ("svc", "1.0.0")
    ∧ read_service_info_from_pyproject (.parsed ⟨some ⟨some "svc", none⟩⟩) =
        .error "Missing 'project.version' in pyproject.toml"
    ∧ isErr (read_service_info_from_package_json (.parsed ⟨none, some "2.0.0"⟩))
    ∧ isErr (read_service_info_from_pyproject (.parsed ⟨none⟩)) :=
  ⟨(manifest_version_defaulting).1 "svc" ⟨some "svc", none⟩ rfl rfl,
   (manifest_version_defaulting).2.1 "svc" ⟨some "svc", none⟩ rfl rfl,
   (manifest_version_defaulting).2.2.1 ⟨none, some "2.0.0"⟩ rfl,
   (manifest_version_defaulting).2.2.2.1 ⟨none⟩ rfl⟩

/-! ## Build orchestration (`main`, main.rs:320-501)

The external commands are modelled by a `World` record carrying each
command's exit status and relevant captured output. `main`'s sequential
body becomes a pure function from the configuration and the world to
the list of invoked external steps and the outcome, with the error
message strings taken verbatim from the source. `main`'s metadata read
and template rendering between the snapshot phase and the chart phase
are pure and modelled separately (see the manifest and renderer
sections); the orchestration takes the resulting service name and
version as parameters. -/

/-- The external command invocations of `main`, in source order. -/
inductive Step where
  | build | push | runC | wait | inspect | cp | rm | lint | package
deriving DecidableEq, Repr

/-- The `--push` and `--make-tar-gz` flags of the run. -/
structure Config where
  push : Bool
  makeTarGz : Bool
deriving DecidableEq, Repr

/-- Exit statuses and captured output of the external commands.
`inspectExitCode` is the `parse::<i32>()` of the trimmed `docker
inspect` stdout, `none` when parsing fails. -/
structure World where
  buildStatus : Nat
  pushStatus : Nat
  runStatus : Nat
  runStderr : String
  waitStatus : Nat
  inspectStatus : Nat
  inspectExitCode : Option Int
  cpStatus : Nat
  rmStatus : Nat
  tarExists : Bool
  lintStatus : Nat
  packageStatus : Nat
  chartExists : Bool
deriving DecidableEq, Repr

/-- Sequence two pipeline phases: the second runs only when the first
succeeded; invoked steps accumulate. -/
def seqSteps (a b : List Step × Except String Unit) : List Step × Except String Unit :=
  match a with
  | (t, .error e) => (t, .error e)
  | (t, .ok _) => (t ++ b.1, b.2)

/-- Docker build (main.rs:320-329). -/
def buildPhase (w : World) : List Step × Except String Unit :=
  if w.buildStatus ≠ 0 then ([.build], .error "Docker build failed")
  else ([.build], .ok ())

/-- Docker push, only when requested (main.rs:334-343). -/
def pushPhase (cfg : Config) (w : World) : List Step × Except String Unit :=
  if cfg.push then
    if w.pushStatus ≠ 0 then ([.push], .error "Docker push failed")
    else ([.push], .ok ())
  else ([], .ok ())

/-- Snapshot extraction, only when requested (main.rs:346-435): run the
container detached, wait, inspect its exit code (non-zero is fatal),
copy the archive out, remove the container, then check the archive file
exists. The `ParseIntError` of a non-numeric inspect output is modelled
by a fixed string. -/
def tarPhase (cfg : Config) (tempDir : String) (w : World) :
    List Step × Except String Unit :=
  if cfg.makeTarGz then
    if w.runStatus ≠ 0 then
      ([.runC], .error ("Failed to start Docker container: " ++ w.runStderr))
    else if w.waitStatus ≠ 0 then
      ([.runC, .wait], .error "Failed to wait for container")
    else if w.inspectStatus ≠ 0 then
      ([.runC, .wait, .inspect], .error "Failed to inspect container exit code")
    else
      match w.inspectExitCode with
      | none => ([.runC, .wait, .inspect], .error "ParseIntError")
      | some code =>
          if code ≠ 0 then
            ([.runC, .wait, .inspect], .error ("Container exited with code: " ++ toString code))
          else if w.cpStatus ≠ 0 then
            ([.runC, .wait, .inspect, .cp], .error "Failed to copy project.tar.gz from container")
          else if w.rmStatus ≠ 0 then
            ([.runC, .wait, .inspect, .cp, .rm], .error "Failed to remove container")
          else if w.tarExists then
            ([.runC, .wait, .inspect, .cp, .rm], .ok ())
          else
            ([.runC, .wait, .inspect, .cp, .rm],
              .error ("project.tar.gz not found at: " ++ tempDir ++ "/project.tar.gz"))
  else ([], .ok ())

/-- On-disk name of the packaged chart (main.rs:484). -/
def chartFileName (service version : String) : String :=
  service ++ "-" ++ version ++ ".tgz"

/-- Helm lint, helm package, and the archive integrity check
(main.rs:461-495). `Path::join` is modelled by `"/"`-separated
concatenation. -/
def chartPhase (tempDir service version : String) (w : World) :
    List Step × Except String Unit :=
  if w.lintStatus ≠ 0 then ([.lint], .error "Helm lint failed")
  else if w.packageStatus ≠ 0 then ([.lint, .package], .error "Helm package failed")
  else if w.chartExists then ([.lint, .package], .ok ())
  else ([.lint, .package],
    .error ("Helm chart file not found: " ++ tempDir ++ "/" ++ chartFileName service version))

/-- The external-process portion of `main` (main.rs:320-501): build,
optional push, optional snapshot extraction, chart lint/package with
the integrity check, fail-fast at the first error. -/
def runPipeline (cfg : Config) (tempDir service version : String) (w : World) :
    List Step × Except String Unit :=
  seqSteps (buildPhase w)
    (seqSteps (pushPhase cfg w)
      (seqSteps (tarPhase cfg tempDir w) (chartPhase tempDir service version w)))

/-- The steps of a fully successful run for a given configuration. -/
def fullTrace (cfg : Config) : List Step :=
  [Step.build] ++
    ((if cfg.push then [Step.push] else []) ++
      ((if cfg.makeTarGz then [Step.runC, Step.wait, Step.inspect, Step.cp, Step.rm] else []) ++
        [Step.lint, Step.package]))

/-! ### Helper lemmas about phase sequencing -/

theorem seqSteps_err {t : List Step} {e : String} (b : List Step × Except String Unit) :
    seqSteps (t, .error e) b = (t, .error e) := rfl

theorem seqSteps_ok {t : List Step} (b : List Step × Except String Unit) :
    seqSteps (t, .ok ()) b = (t ++ b.1, b.2) := rfl

theorem prefix_append_left {α : Type} {l₁ l₂ : List α} (l : List α) (h : l₁ <+: l₂) :
    l ++ l₁ <+: l ++ l₂ := by
  obtain ⟨t, ht⟩ := h
  exact ⟨t, by rw [List.append_assoc, ht]⟩

/-- Sequencing two phases whose traces are prefixes of their full
segments (the first one complete when it succeeds) gives a trace that is
a prefix of the two segments appended. -/
theorem seqSteps_trace_bound {a b : List Step × Except String Unit} {A B : List Step}
    (ha1 : a.1 <+: A) (ha2 : a.2 = .ok () → a.1 = A) (hb : b.1 <+: B) :
    (seqSteps a b).1 <+: A ++ B := by
  obtain ⟨t1, r1⟩ := a
  cases r1 with
  | error e => exact (ha1.trans (List.prefix_append A B))
  | ok u =>
      cases u
      show (t1 ++ b.1, b.2).1 <+: A ++ B
      have hA : t1 = A := ha2 rfl
      subst hA
      exact prefix_append_left t1 hb

theorem buildPhase_spec (w : World) :
    (buildPhase w).1 <+: [Step.build] ∧ ((buildPhase w).2 = .ok () → (buildPhase w).1 = [Step.build]) := by
  unfold buildPhase
  split_ifs <;> simp

theorem pushPhase_spec (cfg : Config) (w : World) :
    (pushPhase cfg w).1 <+: (if cfg.push then [Step.push] else [])
    ∧ ((pushPhase cfg w).2 = .ok () → (pushPhase cfg w).1 = (if cfg.push then [Step.push] else [])) := by
  unfold pushPhase
  split_ifs <;> simp

theorem tarPhase_spec (cfg : Config) (td : String) (w : World) :
    (tarPhase cfg td w).1 <+:
        (if cfg.makeTarGz then [Step.runC, Step.wait, Step.inspect, Step.cp, Step.rm] else [])
    ∧ ((tarPhase cfg td w).2 = .ok () → (tarPhase cfg td w).1 =
        (if cfg.makeTarGz then [Step.runC, Step.wait, Step.inspect, Step.cp, Step.rm] else [])) := by
  unfold tarPhase
  rcases hins : w.inspectExitCode with _ | code <;>
    simp only [hins] <;>
    split_ifs <;>
    refine ⟨?_, ?_⟩ <;>
    simp only [Prod.fst, Prod.snd] <;>
    decide

theorem chartPhase_spec (td sv vv : String) (w : World) :
    (chartPhase td sv vv w).1 <+: [Step.lint, Step.package] := by
  unfold chartPhase
  split_ifs <;> simp

/-- C1 counterexample: a run whose external build exits with status 2
(push requested) aborts with the error `"Docker build failed"` — the
message names the build step, and the push step never runs — but the
surfaced error contains no digit at all, hence does not carry the exit
code 2. -/
theorem pipeline_build_failure_counterexample :
    runPipeline ⟨true, false⟩ "tmp" "svc" "1.0.0"
        ⟨2, 0, 0, "", 0, 0, some 0, 0, 0, true, 0, 0, true⟩ =
      ([Step.build], .error "Docker build failed")
    ∧ ∀ c ∈ "Docker build failed".toList, ¬ c.isDigit := by
  constructor
  · rfl
  · decide

/-- C1 amended: the pipeline invokes the external steps in the fixed
order build, then push (only if the push flag is set), then snapshot
extraction (only if the snapshot flag is set); at the first step
returning a non-zero exit status it aborts, no later step runs (a build
failure halts before any push), and the surfaced error names the failing
step — but carries no exit code (the only numeric code ever surfaced is
the container exit code of the snapshot sub-sequence). -/
theorem pipeline_fail_fast (cfg : Config) (td sv vv : String) (w : World) :
    (w.buildStatus ≠ 0 →
      runPipeline cfg td sv vv w = ([Step.build], .error "Docker build failed"))
    ∧ (w.buildStatus = 0 → cfg.push = true → w.pushStatus ≠ 0 →
      runPipeline cfg td sv vv w = ([Step.build, Step.push], .error "Docker push failed"))
    ∧ (runPipeline cfg td sv vv w).1 <+: fullTrace cfg
    ∧ (cfg.push = false → Step.push ∉ (runPipeline cfg td sv vv w).1)
    ∧ (cfg.makeTarGz = false → Step.runC ∉ (runPipeline cfg td sv vv w).1) := by
  have hpre : (runPipeline cfg td sv vv w).1 <+: fullTrace cfg := by
    unfold runPipeline fullTrace
    exact seqSteps_trace_bound (buildPhase_spec w).1 (buildPhase_spec w).2
      (seqSteps_trace_bound (pushPhase_spec cfg w).1 (pushPhase_spec cfg w).2
        (seqSteps_trace_bound (tarPhase_spec cfg td w).1 (tarPhase_spec cfg td w).2
          (chartPhase_spec td sv vv w)))
  refine ⟨fun h => ?_, fun hb hp hps => ?_, hpre, fun hp hmem => ?_, fun hm hmem => ?_⟩
  · unfold runPipeline buildPhase
    rw [if_pos h, seqSteps_err]
  · unfold runPipeline buildPhase pushPhase
    rw [if_neg (by omega), seqSteps_ok, hp, if_pos rfl, if_pos hps, seqSteps_err]
    rfl
  · have hin := hpre.subset hmem
    obtain ⟨cp, cm⟩ := cfg
    simp only at hp
    subst hp
    revert hin
    cases cm <;> decide
  · have hin := hpre.subset hmem
    obtain ⟨cp, cm⟩ := cfg
    simp only at hm
    subst hm
    revert hin
    cases cp <;> decide

/-- Witness for C1 amended: `pipeline_fail_fast` at a concrete failing
push (exit 1) after a successful build, and at a pushless
configuration. -/
theorem pipeline_fail_fast_witness :
    runPipeline ⟨true, false⟩ "tmp" "svc" "1.0.0"
        ⟨0, 1, 0, "", 0, 0, some 0, 0, 0, true, 0, 0, true⟩ =
      ([Step.build, Step.push], .error "Docker push failed")
    ∧ Step.push ∉ (runPipeline ⟨false, false⟩ "tmp" "svc" "1.0.0"
        ⟨0, 0, 0, "", 0, 0, some 0, 0, 0, true, 0, 0, true⟩).1 :=
  ⟨(pipeline_fail_fast ⟨true, false⟩ "tmp" "svc" "1.0.0"
      ⟨0, 1, 0, "", 0, 0, some 0, 0, 0, true, 0, 0, true⟩).2.1 rfl rfl (by decide),
   (pipeline_fail_fast ⟨false, false⟩ "tmp" "svc" "1.0.0"
      ⟨0, 0, 0, "", 0, 0, some 0, 0, 0, true, 0, 0, true⟩).2.2.2.1 rfl⟩

theorem seqSteps_fst (a b : List Step × Except String Unit) :
    (seqSteps a b).1 = a.1 ∨ (seqSteps a b).1 = a.1 ++ b.1 := by
  obtain ⟨t, r⟩ := a
  cases r <;> simp [seqSteps]

/-- C9: when snapshot extraction is requested, the four-step
sub-sequence runs in full whether or not push was requested, and a
non-zero container exit code obtained from the inspect step aborts the
pipeline with a hard failure even though the wait call itself
succeeded. -/
theorem snapshot_subsequence (cfg : Config) (td sv vv : String) (w : World) (code : Int)
    (hm : cfg.makeTarGz = true) (hb : w.buildStatus = 0)
    (hpp : cfg.push = false ∨ w.pushStatus = 0)
    (hrun : w.runStatus = 0) (hwait : w.waitStatus = 0) (hins : w.inspectStatus = 0) :
    (w.inspectExitCode = some 0 → w.cpStatus = 0 → w.rmStatus = 0 →
      [Step.runC, Step.wait, Step.inspect, Step.cp, Step.rm] <:+: (runPipeline cfg td sv vv w).1)
    ∧ (w.inspectExitCode = some code → code ≠ 0 →
      (runPipeline cfg td sv vv w).2 = .error ("Container exited with code: " ++ toString code)
      ∧ Step.cp ∉ (runPipeline cfg td sv vv w).1
      ∧ Step.lint ∉ (runPipeline cfg td sv vv w).1) := by
  have hbuild : buildPhase w = ([Step.build], .ok ()) := by
    unfold buildPhase
    rw [if_neg (by omega)]
  have hpush : pushPhase cfg w = (if cfg.push then [Step.push] else [], .ok ()) := by
    unfold pushPhase
    rcases hpp with h | h
    · rw [h]
      rfl
    · by_cases h2 : cfg.push
      · simp [h2, h]
      · simp [h2]
  constructor
  · intro hcode hcp hrm
    have htar1 : (tarPhase cfg td w).1 =
        [Step.runC, Step.wait, Step.inspect, Step.cp, Step.rm] := by
      unfold tarPhase
      simp [hm, hrun, hwait, hins, hcode, hcp, hrm]
      split_ifs <;> rfl
    have htrace : (runPipeline cfg td sv vv w).1 =
        [Step.build] ++ ((if cfg.push then [Step.push] else []) ++
          (seqSteps (tarPhase cfg td w) (chartPhase td sv vv w)).1) := by
      unfold runPipeline
      rw [hbuild, seqSteps_ok, hpush, seqSteps_ok]
    rcases seqSteps_fst (tarPhase cfg td w) (chartPhase td sv vv w) with hX | hX
    · rw [htrace, hX, htar1]
      simpa [List.append_assoc] using
        List.infix_append ([Step.build] ++ (if cfg.push then [Step.push] else []))
          [Step.runC, Step.wait, Step.inspect, Step.cp, Step.rm] []
    · rw [htrace, hX, htar1]
      simpa [List.append_assoc] using
        List.infix_append ([Step.build] ++ (if cfg.push then [Step.push] else []))
          [Step.runC, Step.wait, Step.inspect, Step.cp, Step.rm]
          (chartPhase td sv vv w).1
  · intro hcode hcd
    have htar : tarPhase cfg td w = ([Step.runC, Step.wait, Step.inspect],
        .error ("Container exited with code: " ++ toString code)) := by
      unfold tarPhase
      simp [hm, hrun, hwait, hins, hcode, hcd]
    have hall : runPipeline cfg td sv vv w =
        ([Step.build] ++ ((if cfg.push then [Step.push] else []) ++
            [Step.runC, Step.wait, Step.inspect]),
          .error ("Container exited with code: " ++ toString code)) := by
      unfold runPipeline
      rw [hbuild, seqSteps_ok, hpush, seqSteps_ok, htar, seqSteps_err]
    rw [hall]
    obtain ⟨cp, cm⟩ := cfg
    refine ⟨rfl, ?_, ?_⟩ <;> cases cp <;> simp

/-- Witness for C9: `snapshot_subsequence` at a concrete pushless
snapshot run, once fully successful and once with container exit code 3. -/
theorem snapshot_subsequence_witness :
    [Step.runC, Step.wait, Step.inspect, Step.cp, Step.rm] <:+:
      (runPipeline ⟨false, true⟩ "tmp" "svc" "1.0.0"
        ⟨0, 0, 0, "", 0, 0, some 0, 0, 0, true, 0, 0, true⟩).1
    ∧ (runPipeline ⟨false, true⟩ "tmp" "svc" "1.0.0"
        ⟨0, 0, 0, "", 0, 0, some 3, 0, 0, true, 0, 0, true⟩).2 =
      .error ("Container exited with code: " ++ toString (3 : Int)) :=
  ⟨((snapshot_subsequence ⟨false, true⟩ "tmp" "svc" "1.0.0"
      ⟨0, 0, 0, "", 0, 0, some 0, 0, 0, true, 0, 0, true⟩ 0
      rfl rfl (Or.inl rfl) rfl rfl rfl).1 rfl rfl rfl),
   ((snapshot_subsequence ⟨false, true⟩ "tmp" "svc" "1.0.0"
      ⟨0, 0, 0, "", 0, 0, some 3, 0, 0, true, 0, 0, true⟩ 3
      rfl rfl (Or.inl rfl) rfl rfl rfl).2 rfl (by decide)).1⟩

/-- C8: the packaged chart's filename is computed as
`<service-name>-<version>` plus the `.tgz` extension; after the external
packager exits with status zero the pipeline verifies this file exists,
and its absence is reported by a distinct error message, different from
the packager's own non-zero-exit failure. -/
theorem chart_artifact_integrity (td sv vv : String) (w : World)
    (hb : w.buildStatus = 0) (hl : w.lintStatus = 0) :
    (w.packageStatus ≠ 0 →
      runPipeline ⟨false, false⟩ td sv vv w =
        ([Step.build, Step.lint, Step.package], .error "Helm package failed"))
    ∧ (w.packageStatus = 0 → w.chartExists = false →
      runPipeline ⟨false, false⟩ td sv vv w =
        ([Step.build, Step.lint, Step.package],
          .error ("Helm chart file not found: " ++ td ++ "/" ++ chartFileName sv vv)))
    ∧ chartFileName sv vv = sv ++ "-" ++ vv ++ ".tgz"
    ∧ ("Helm chart file not found: " ++ td ++ "/" ++ chartFileName sv vv) ≠
        "Helm package failed" := by
  refine ⟨fun hp => ?_, fun hp hc => ?_, rfl, fun h => ?_⟩
  · simp [runPipeline, buildPhase, pushPhase, tarPhase, chartPhase, seqSteps, hb, hl, hp]
  · simp [runPipeline, buildPhase, pushPhase, tarPhase, chartPhase, seqSteps, hb, hl, hp, hc]
  · have h' := congrArg String.length h
    rw [String.length_append, String.length_append, String.length_append] at h'
    have h1 : "Helm chart file not found: ".length = 27 := rfl
    have h2 : "Helm package failed".length = 19 := rfl
    have h3 : "/".length = 1 := rfl
    rw [h1, h2, h3] at h'
    omega

/-- Witness for C8: `chart_artifact_integrity` on a run whose packager
succeeds but whose archive file is absent, and on a failing packager. -/
theorem chart_artifact_integrity_witness :
    runPipeline ⟨false, false⟩ "tmp" "svc" "1.0.0"
        ⟨0, 0, 0, "", 0, 0, some 0, 0, 0, true, 0, 0, false⟩ =
      ([Step.build, Step.lint, Step.package],
        .error ("Helm chart file not found: " ++ "tmp" ++ "/" ++ chartFileName "svc" "1.0.0"))
    ∧ runPipeline ⟨false, false⟩ "tmp" "svc" "1.0.0"
        ⟨0, 0, 0, "", 0, 0, some 0, 0, 0, true, 0, 1, true⟩ =
      ([Step.build, Step.lint, Step.package], .error "Helm package failed") :=
  ⟨(chart_artifact_integrity "tmp" "svc" "1.0.0"
      ⟨0, 0, 0, "", 0, 0, some 0, 0, 0, true, 0, 0, false⟩ rfl rfl).2.1 rfl rfl,
   (chart_artifact_integrity "tmp" "svc" "1.0.0"
      ⟨0, 0, 0, "", 0, 0, some 0, 0, 0, true, 0, 1, true⟩ rfl rfl).1 (by decide)⟩

/-! ## Template rendering (`modify_dockerfile_python`,
`modify_dockerfile_nodejs`, `copy_and_replace_charts`,
main.rs:530-556 and 766-800)

Rust `str::replace` scans left to right and replaces each non-overlapping
occurrence of the pattern; `replaceL` is that scan on `List Char`. The
source only ever calls it with the non-empty literal placeholder tokens,
so the `pat ≠ []` guard (Rust's empty-pattern corner) is never exercised
by the embedded renderers. -/

/-- Greedy left-to-right replacement of every non-overlapping occurrence
of `pat` by `rep` (Rust `str::replace`). -/
def replaceL (pat rep : List Char) : List Char → List Char
  | [] => []
  | c :: rest =>
      if h : pat ≠ [] ∧ pat.isPrefixOf (c :: rest) then
        rep ++ replaceL pat rep (List.drop pat.length (c :: rest))
      else c :: replaceL pat rep rest
termination_by s => s.length
decreasing_by
  · have hp : 0 < pat.length := List.length_pos.mpr h.1
    simp
    omega
  · simp

/-- The segments of `s` lying between the non-overlapping occurrences of
`pat` found by the same greedy scan as `replaceL`. -/
def splitOnL (pat : List Char) : List Char → List (List Char)
  | [] => [[]]
  | c :: rest =>
      if h : pat ≠ [] ∧ pat.isPrefixOf (c :: rest) then
        [] :: splitOnL pat (List.drop pat.length (c :: rest))
      else List.modifyHead (c :: ·) (splitOnL pat rest)
termination_by s => s.length
decreasing_by
  · have hp : 0 < pat.length := List.length_pos.mpr h.1
    simp
    omega
  · simp

/-- Join segments, interposing `sep` between consecutive ones. -/
def joinSep (sep : List Char) : List (List Char) → List Char
  | [] => []
  | [x] => x
  | x :: xs => x ++ sep ++ joinSep sep xs

/-- The placeholder tokens of the build-file templates (main.rs:538-543,
552-555). -/
def tokBASE_IMAGE : List Char := "{BASE_IMAGE}".toList

def tokPROJECT_DIR : List Char := "{PROJECT_DIR}".toList

def tokPORT : List Char := "{PORT}".toList

def tokENTRYPOINT : List Char := "{ENTRYPOINT}".toList

def tokPYTHON_VERSION : List Char := "{PYTHON_VERSION}".toList

/-- The placeholder tokens of the chart templates (main.rs:790-793). -/
def tokSERVICE_NAME : List Char := "{SERVICE_NAME}".toList

def tokVERSION : List Char := "{VERSION}".toList

def tokIMAGE_NAME : List Char := "{IMAGE_NAME}".toList

/-- Embedding of `modify_dockerfile_python` (main.rs:530-544): the five
chained `replace` calls, in source order; `port.to_string()` is the
decimal digit list. -/
def modify_dockerfile_python (template base_image project_dir entrypoint : List Char)
    (port : Nat) (python_version : List Char) : List Char :=
  replaceL tokPYTHON_VERSION python_version
    (replaceL tokENTRYPOINT entrypoint
      (replaceL tokPORT (Nat.toDigits 10 port)
        (replaceL tokPROJECT_DIR project_dir
          (replaceL tokBASE_IMAGE base_image template))))

/-- Embedding of `modify_dockerfile_nodejs` (main.rs:546-556): the three
chained `replace` calls, in source order. -/
def modify_dockerfile_nodejs (template base_image project_dir : List Char)
    (port : Nat) : List Char :=
  replaceL tokPORT (Nat.toDigits 10 port)
    (replaceL tokPROJECT_DIR project_dir
      (replaceL tokBASE_IMAGE base_image template))

/-- Embedding of the per-file content substitution of
`copy_and_replace_charts` (main.rs:787-793): the four chained `replace`
calls applied to one embedded chart file's content. -/
def copy_and_replace_content (content service_name version : List Char)
    (port : Nat) (image_name : List Char) : List Char :=
  replaceL tokIMAGE_NAME image_name
    (replaceL tokPORT (Nat.toDigits 10 port)
      (replaceL tokVERSION version
        (replaceL tokSERVICE_NAME service_name content)))

/-! ### Characterization of the greedy replacement -/

theorem splitOnL_ne_nil (pat s : List Char) : splitOnL pat s ≠ [] := by
  induction s using splitOnL.induct pat with
  | case1 => simp [splitOnL]
  | case2 c rest h ih =>
      rw [splitOnL, dif_pos h]
      simp
  | case3 c rest h ih =>
      rw [splitOnL, dif_neg h]
      cases hL : splitOnL pat rest with
      | nil => exact absurd hL ih
      | cons x xs => simp

theorem joinSep_modifyHead (sep : List Char) (c : Char) (L : List (List Char))
    (hL : L ≠ []) :
    joinSep sep (List.modifyHead (c :: ·) L) = c :: joinSep sep L := by
  match L with
  | [] => exact absurd rfl hL
  | [x] => rfl
  | x :: y :: ys => simp [joinSep, List.modifyHead]

/-- Joining the segments back with the pattern itself restores the
scanned text: the scan classifies every character of the input, removing
exactly the found occurrences and keeping all other text. -/
theorem joinSep_splitOnL (pat s : List Char) : joinSep pat (splitOnL pat s) = s := by
  induction s using splitOnL.induct pat with
  | case1 => simp [splitOnL, joinSep]
  | case2 c rest h ih =>
      rw [splitOnL, dif_pos h]
      rcases hL : splitOnL pat (List.drop pat.length (c :: rest)) with _ | ⟨x, xs⟩
      · exact absurd hL (splitOnL_ne_nil pat _)
      · rw [hL] at ih
        have htake : pat = List.take pat.length (c :: rest) :=
          List.prefix_iff_eq_take.mp (List.isPrefixOf_iff_prefix.mp h.2)
        calc [] ++ pat ++ joinSep pat (x :: xs)
            = pat ++ List.drop pat.length (c :: rest) := by rw [List.nil_append, ih]
          _ = List.take pat.length (c :: rest) ++ List.drop pat.length (c :: rest) := by
              rw [← htake]
          _ = c :: rest := List.take_append_drop pat.length (c :: rest)
  | case3 c rest h ih =>
      rw [splitOnL, dif_neg h, joinSep_modifyHead pat c _ (splitOnL_ne_nil pat rest), ih]

/-- The greedy replacement equals the segments joined with the
replacement value: every found occurrence is replaced by the value and
all other text is kept verbatim. -/
theorem replaceL_eq_joinSep (pat rep s : List Char) :
    replaceL pat rep s = joinSep rep (splitOnL pat s) := by
  induction s using splitOnL.induct pat with
  | case1 => simp [splitOnL, replaceL, joinSep]
  | case2 c rest h ih =>
      rw [replaceL, dif_pos h, splitOnL, dif_pos h]
      rcases hL : splitOnL pat (List.drop pat.length (c :: rest)) with _ | ⟨x, xs⟩
      · exact absurd hL (splitOnL_ne_nil pat _)
      · rw [hL] at ih
        show rep ++ replaceL pat rep (List.drop pat.length (c :: rest)) =
          [] ++ rep ++ joinSep rep (x :: xs)
        rw [ih, List.nil_append]
  | case3 c rest h ih =>
      rw [replaceL, dif_neg h, splitOnL, dif_neg h,
        joinSep_modifyHead rep c _ (splitOnL_ne_nil pat rest), ih]

/-- Text containing no occurrence of the pattern is left unchanged. -/
theorem replaceL_no_occurrence (pat rep s : List Char) (h : ¬ pat <:+: s) :
    replaceL pat rep s = s := by
  induction s using replaceL.induct pat rep with
  | case1 => simp [replaceL]
  | case2 c rest hg ih =>
      exact absurd (List.IsPrefix.isInfix (List.isPrefixOf_iff_prefix.mp hg.2)) h
  | case3 c rest hg ih =>
      rw [replaceL, dif_neg hg, ih (fun hinf => h (List.infix_cons hinf))]

/-! ### Persistence of a token no replacement touches

Every placeholder token starts with `'{'` and contains no further
`'{'` before its closing brace; two distinct tokens are never prefixes
of one another. Under these shape facts, occurrences of one token
survive the greedy replacement of a different token, whatever the
replacement value is. -/

/-- A list of characters containing no opening brace. -/
def braceFree (l : List Char) : Prop := '{' ∉ l

instance (l : List Char) : Decidable (braceFree l) := by
  unfold braceFree
  infer_instance

theorem replaceL_keeps_braceFree_start (pat rep : List Char)
    (hpat : pat.head? = some '{') :
    ∀ s t, braceFree t → t <+: s → t <+: replaceL pat rep s := by
  intro s
  induction s using replaceL.induct pat rep with
  | case1 =>
      intro t ht h
      rw [List.prefix_nil] at h
      subst h
      exact List.nil_prefix
  | case2 c rest hg ih =>
      intro t ht h
      rcases t with _ | ⟨d, t'⟩
      · exact List.nil_prefix
      · rcases pat with _ | ⟨pc, pat'⟩
        · simp at hpat
        · have hpc : pc = '{' := by simpa using hpat
          have hpre : pc :: pat' <+: (c :: rest) := List.isPrefixOf_iff_prefix.mp hg.2
          have hc : pc = c := (List.cons_prefix_cons.mp hpre).1
          have hd : d = c := (List.cons_prefix_cons.mp h).1
          refine absurd ?_ ht
          show '{' ∈ d :: t'
          rw [← hpc, hc, ← hd]
          exact List.mem_cons_self d t'
  | case3 c rest hg ih =>
      intro t ht h
      rcases t with _ | ⟨d, t'⟩
      · exact List.nil_prefix
      · rw [replaceL, dif_neg hg]
        obtain ⟨hd, ht'⟩ := List.cons_prefix_cons.mp h
        subst hd
        exact List.cons_prefix_cons.mpr
          ⟨rfl, ih t' (fun hm => ht (List.mem_cons_of_mem _ hm)) ht'⟩

theorem replaceL_keeps_token_start (pat rep q : List Char)
    (hpat : pat.head? = some '{') (hq : q.head? = some '{') (hqt : braceFree q.tail)
    (hpq : ¬ pat <+: q) (hqp : ¬ q <+: pat) :
    ∀ s, q <+: s → q <+: replaceL pat rep s := by
  intro s
  induction s using replaceL.induct pat rep with
  | case1 =>
      intro h
      rw [List.prefix_nil] at h
      subst h
      simp at hq
  | case2 c rest hg ih =>
      intro h
      have hpre : pat <+: (c :: rest) := List.isPrefixOf_iff_prefix.mp hg.2
      rcases List.prefix_or_prefix_of_prefix h hpre with h1 | h1
      · exact absurd h1 hqp
      · exact absurd h1 hpq
  | case3 c rest hg ih =>
      intro h
      rcases hqe : q with _ | ⟨d, q'⟩
      · exact List.nil_prefix
      · rw [replaceL, dif_neg hg]
        rw [hqe] at h
        obtain ⟨hd, hq'⟩ := List.cons_prefix_cons.mp h
        subst hd
        refine List.cons_prefix_cons.mpr ⟨rfl, ?_⟩
        have hqt' : braceFree q' := by rw [hqe] at hqt; exact hqt
        exact replaceL_keeps_braceFree_start pat rep hpat rest q' hqt' hq'

theorem replaceL_keeps_token_occurrence (pat rep q : List Char)
    (hpat : pat.head? = some '{') (hpatt : braceFree pat.tail)
    (hq : q.head? = some '{') (hqt : braceFree q.tail)
    (hpq : ¬ pat <+: q) (hqp : ¬ q <+: pat) :
    ∀ s, q <:+: s → q <:+: replaceL pat rep s := by
  intro s
  induction s using replaceL.induct pat rep with
  | case1 =>
      intro h
      rw [List.infix_nil] at h
      subst h
      simp at hq
  | case2 c rest hg ih =>
      intro h
      rcases List.infix_cons_iff.mp h with hpre | hinf
      · exact (replaceL_keeps_token_start pat rep q hpat hq hqt hpq hqp (c :: rest) hpre).isInfix
      · have hpre2 : pat <+: (c :: rest) := List.isPrefixOf_iff_prefix.mp hg.2
        obtain ⟨L, R, hLR⟩ := hinf
        have hs : c :: rest = (c :: L) ++ (q ++ R) := by
          rw [← hLR]
          simp
        have hdrop : q <:+: List.drop pat.length (c :: rest) := by
          by_cases hlen : pat.length ≤ (c :: L).length
          · rw [hs, List.drop_append_of_le_length hlen]
            exact ⟨List.drop pat.length (c :: L), R, by simp [List.append_assoc]⟩
          · exfalso
            push_neg at hlen
            have hXs : (c :: L) <+: c :: rest := by
              rw [hs]
              exact List.prefix_append (c :: L) (q ++ R)
            have hXp : (c :: L) <+: pat :=
              List.prefix_of_prefix_length_le hXs hpre2 (Nat.le_of_lt hlen)
            obtain ⟨pat2, hpat2⟩ := hXp
            have hp2 : pat2 <+: q ++ R := by
              have hpp := hpre2
              rw [hs, ← hpat2] at hpp
              obtain ⟨tt, htt⟩ := hpp
              rw [List.append_assoc] at htt
              exact ⟨tt, List.append_cancel_left htt⟩
            rcases pat2 with _ | ⟨e, p2'⟩
            · rw [List.append_nil] at hpat2
              have hll := congrArg List.length hpat2
              simp at hll hlen
              omega
            · rcases hqe : q with _ | ⟨qh, q''⟩
              · rw [hqe] at hq
                simp at hq
              · have hqh : qh = '{' := by
                  rw [hqe] at hq
                  simpa using hq
                rw [hqe] at hp2
                have he : e = qh := (List.cons_prefix_cons.mp hp2).1
                refine hpatt ?_
                rw [← hpat2]
                show '{' ∈ L ++ e :: p2'
                exact List.mem_append_right L (by rw [he, hqh]; exact List.mem_cons_self '{' p2')
        rw [replaceL, dif_pos hg]
        obtain ⟨L2, R2, hLR2⟩ := ih hdrop
        exact ⟨rep ++ L2, R2, by rw [← hLR2]; simp [List.append_assoc]⟩
  | case3 c rest hg ih =>
      intro h
      rcases List.infix_cons_iff.mp h with hpre | hinf
      · exact (replaceL_keeps_token_start pat rep q hpat hq hqt hpq hqp (c :: rest) hpre).isInfix
      · rw [replaceL, dif_neg hg]
        exact List.infix_cons (ih hinf)

/-- C5: rendering is pure total substitution: `replaceL` — the
`str::replace` the renderers chain — turns the input into its
between-occurrence segments joined by the resolved value, and joining
those same segments with the token itself restores the input, so every
occurrence of the recognized token is replaced with its value and all
other text is unchanged; being a total function it never errors; and a
recognized token for which the renderer supplies no value (here
`{ENTRYPOINT}`, which the Node.js renderer does not replace) remains
literally in the output. -/
theorem template_render_substitution (pat rep s template base_image project_dir : List Char)
    (port : Nat) (he : tokENTRYPOINT <:+: template) :
    joinSep pat (splitOnL pat s) = s
    ∧ replaceL pat rep s = joinSep rep (splitOnL pat s)
    ∧ tokENTRYPOINT <:+: modify_dockerfile_nodejs template base_image project_dir port := by
  refine ⟨joinSep_splitOnL pat s, replaceL_eq_joinSep pat rep s, ?_⟩
  unfold modify_dockerfile_nodejs
  apply replaceL_keeps_token_occurrence tokPORT _ tokENTRYPOINT
    (by decide) (by decide) (by decide) (by decide) (by decide) (by decide)
  apply replaceL_keeps_token_occurrence tokPROJECT_DIR _ tokENTRYPOINT
    (by decide) (by decide) (by decide) (by decide) (by decide) (by decide)
  exact replaceL_keeps_token_occurrence tokBASE_IMAGE _ tokENTRYPOINT
    (by decide) (by decide) (by decide) (by decide) (by decide) (by decide)
    template he

/-- Witness for C5: `template_render_substitution` at a concrete
template: the `{PORT}` token is substituted by the value, and the
valueless `{ENTRYPOINT}` token survives the Node.js renderer. -/
theorem template_render_substitution_witness :
    joinSep tokPORT (splitOnL tokPORT "EXPOSE {PORT}".toList) = "EXPOSE {PORT}".toList
    ∧ replaceL tokPORT "8080".toList "EXPOSE {PORT}".toList =
        joinSep "8080".toList (splitOnL tokPORT "EXPOSE {PORT}".toList)
    ∧ tokENTRYPOINT <:+:
        modify_dockerfile_nodejs tokENTRYPOINT "img".toList "proj".toList 3000 :=
  template_render_substitution tokPORT "8080".toList "EXPOSE {PORT}".toList
    tokENTRYPOINT "img".toList "proj".toList 3000 (by decide)

/-- C6: template substitution is idempotent on already-resolved text:
an input with no occurrence of any placeholder token is returned
unchanged by both build-file renderers, so rendering twice equals
rendering once. -/
theorem render_idempotent_on_resolved
    (t base_image project_dir entrypoint python_version : List Char) (port : Nat)
    (h1 : ¬ tokBASE_IMAGE <:+: t) (h2 : ¬ tokPROJECT_DIR <:+: t)
    (h3 : ¬ tokPORT <:+: t) (h4 : ¬ tokENTRYPOINT <:+: t)
    (h5 : ¬ tokPYTHON_VERSION <:+: t) :
    modify_dockerfile_python t base_image project_dir entrypoint port python_version = t
    ∧ modify_dockerfile_nodejs t base_image project_dir port = t
    ∧ modify_dockerfile_python
        (modify_dockerfile_python t base_image project_dir entrypoint port python_version)
        base_image project_dir entrypoint port python_version =
      modify_dockerfile_python t base_image project_dir entrypoint port python_version
    ∧ modify_dockerfile_nodejs (modify_dockerfile_nodejs t base_image project_dir port)
        base_image project_dir port =
      modify_dockerfile_nodejs t base_image project_dir port := by
  have hpy : modify_dockerfile_python t base_image project_dir entrypoint port
      python_version = t := by
    unfold modify_dockerfile_python
    rw [replaceL_no_occurrence _ _ _ h1, replaceL_no_occurrence _ _ _ h2,
      replaceL_no_occurrence _ _ _ h3, replaceL_no_occurrence _ _ _ h4,
      replaceL_no_occurrence _ _ _ h5]
  have hnd : modify_dockerfile_nodejs t base_image project_dir port = t := by
    unfold modify_dockerfile_nodejs
    rw [replaceL_no_occurrence _ _ _ h1, replaceL_no_occurrence _ _ _ h2,
      replaceL_no_occurrence _ _ _ h3]
  refine ⟨hpy, hnd, ?_, ?_⟩
  · rw [hpy, hpy]
  · rw [hnd, hnd]

/-- Witness for C6: `render_idempotent_on_resolved` at a concrete
token-free text. -/
theorem render_idempotent_on_resolved_witness :
    modify_dockerfile_python "FROM img EXPOSE 80".toList "img".toList "proj".toList
        "main.py".toList 80 "3.13".toList = "FROM img EXPOSE 80".toList
    ∧ modify_dockerfile_nodejs "FROM img EXPOSE 80".toList "img".toList "proj".toList 80 =
        "FROM img EXPOSE 80".toList :=
  ⟨(render_idempotent_on_resolved "FROM img EXPOSE 80".toList "img".toList "proj".toList
      "main.py".toList "3.13".toList 80
      (by decide) (by decide) (by decide) (by decide) (by decide)).1,
   (render_idempotent_on_resolved "FROM img EXPOSE 80".toList "img".toList "proj".toList
      "main.py".toList "3.13".toList 80
      (by decide) (by decide) (by decide) (by decide) (by decide)).2.1⟩

/-! ## Workspace staging (`copy_dir_recursive`, main.rs:611-636)

The project tree is a finite tree of named entries; `copy_dir_recursive`
walks the entries of a directory, skips any entry named `.venv` or
`node_modules` (Rust's `continue`), recurses into the remaining
directories and copies the remaining files. `filesUnder` lists the
component paths of all files of a tree. -/

inductive FsTree where
  | file (content : String)
  | dir (entries : List (String × FsTree))

/-- Embedding of `copy_dir_recursive` (main.rs:611-636): the staged copy
of a tree, with `.venv` and `node_modules` entries skipped at every
level. -/
def copy_dir_recursive : FsTree → FsTree
  | .file c => .file c
  | .dir es => .dir (es.attach.filterMap (fun e =>
      if e.1.1 = ".venv" ∨ e.1.1 = "node_modules" then none
      else some (e.1.1, copy_dir_recursive e.1.2)))
decreasing_by
  have h1 : sizeOf e.1 < sizeOf es := List.sizeOf_lt_of_mem e.2
  obtain ⟨⟨a, b⟩, hmem⟩ := e
  simp at h1 ⊢
  omega

/-- The component paths of all files in a tree (the root itself being a
file contributes the empty path). -/
def filesUnder : FsTree → List (List String)
  | .file _ => [[]]
  | .dir es => es.attach.flatMap (fun e => (filesUnder e.1.2).map (fun p => e.1.1 :: p))
decreasing_by
  have h1 : sizeOf e.1 < sizeOf es := List.sizeOf_lt_of_mem e.2
  obtain ⟨⟨a, b⟩, hmem⟩ := e
  simp at h1 ⊢
  omega

theorem copy_dir_recursive_dir (es : List (String × FsTree)) :
    copy_dir_recursive (.dir es) = .dir (es.filterMap (fun x =>
      if x.1 = ".venv" ∨ x.1 = "node_modules" then none
      else some (x.1, copy_dir_recursive x.2))) := by
  rw [copy_dir_recursive]
  congr 1
  conv_rhs => rw [← List.attach_map_subtype_val es]
  rw [List.filterMap_map]
  rfl

theorem filesUnder_dir (es : List (String × FsTree)) :
    filesUnder (.dir es) =
      es.flatMap (fun e => (filesUnder e.2).map (fun p => e.1 :: p)) := by
  rw [filesUnder]
  conv_rhs => rw [← List.attach_map_subtype_val es]
  rw [List.flatMap_map]

theorem mem_filesUnder_dir (es : List (String × FsTree)) (p : List String) :
    p ∈ filesUnder (FsTree.dir es) ↔
      ∃ e ∈ es, ∃ q ∈ filesUnder e.2, p = e.1 :: q := by
  rw [filesUnder_dir]
  simp only [List.mem_flatMap, List.mem_map]
  constructor
  · rintro ⟨e, he, q, hq, rfl⟩
    exact ⟨e, he, q, hq, rfl⟩
  · rintro ⟨e, he, q, hq, rfl⟩
    exact ⟨e, he, q, hq, rfl⟩

theorem copy_dir_excludes_aux : ∀ (n : Nat) (t : FsTree), sizeOf t ≤ n → ∀ p : List String,
    (p ∈ filesUnder (copy_dir_recursive t) ↔
      (p ∈ filesUnder t ∧ ∀ c ∈ p, c ≠ ".venv" ∧ c ≠ "node_modules")) := by
  intro n
  induction n with
  | zero =>
      intro t ht
      exfalso
      cases t <;> simp at ht
  | succ n ih =>
      intro t ht p
      cases t with
      | file c =>
          have hcopy : copy_dir_recursive (FsTree.file c) = FsTree.file c := by
            rw [copy_dir_recursive]
          have hfu : filesUnder (FsTree.file c) = [[]] := by
            rw [filesUnder]
          rw [hcopy, hfu]
          simp only [List.mem_singleton]
          constructor
          · rintro rfl
            exact ⟨rfl, fun c hc => absurd hc (List.not_mem_nil c)⟩
          · exact fun h => h.1
      | dir es =>
          have hsize : ∀ e ∈ es, sizeOf (e : String × FsTree).2 ≤ n := by
            intro e he
            have h1 : sizeOf e < sizeOf es := List.sizeOf_lt_of_mem he
            simp at ht
            obtain ⟨a, b⟩ := e
            simp at h1 ⊢
            omega
          rw [copy_dir_recursive_dir, mem_filesUnder_dir, mem_filesUnder_dir]
          constructor
          · rintro ⟨e, he, q, hq, rfl⟩
            obtain ⟨x, hx, hGx⟩ := List.mem_filterMap.mp he
            by_cases hex : x.1 = ".venv" ∨ x.1 = "node_modules"
            · rw [if_pos hex] at hGx
              cases hGx
            · rw [if_neg hex] at hGx
              obtain rfl := Option.some.inj hGx
              have hq' := (ih x.2 (hsize x hx) q).mp hq
              push_neg at hex
              refine ⟨⟨x, hx, q, hq'.1, rfl⟩, ?_⟩
              intro c hc
              rcases List.mem_cons.mp hc with rfl | hc2
              · exact ⟨hex.1, hex.2⟩
              · exact hq'.2 c hc2
          · rintro ⟨⟨e, he, q, hq, rfl⟩, hall⟩
            have hex : ¬ (e.1 = ".venv" ∨ e.1 = "node_modules") := by
              have h1 := hall e.1 (List.mem_cons_self e.1 q)
              tauto
            refine ⟨(e.1, copy_dir_recursive e.2),
              List.mem_filterMap.mpr ⟨e, he, by rw [if_neg hex]⟩, q, ?_, rfl⟩
            exact (ih e.2 (hsize e he) q).mpr
              ⟨hq, fun c hc => hall c (List.mem_cons_of_mem _ hc)⟩

/-- C7: a path is a file of the staged copy exactly when it is a file of
the project tree and none of its components is `.venv` or
`node_modules`: the copy contains zero files under any excluded-name
subdirectory at any depth, and every entry outside the exclusion set is
copied. -/
theorem workspace_copy_excludes (t : FsTree) (p : List String) :
    p ∈ filesUnder (copy_dir_recursive t) ↔
      (p ∈ filesUnder t ∧ ∀ c ∈ p, c ≠ ".venv" ∧ c ≠ "node_modules") :=
  copy_dir_excludes_aux (sizeOf t) t (Nat.le_refl _) p
